import Mathlib

/-!
Verification of the koala_kombo game core (src/koala_kombo.rs).

The Rust module implements an 8x8 block-placement puzzle:
a flat `Vec<Cell>` board indexed by `y * GRID_SIZE + x`, a static
catalog `PIECES` of polyomino shapes given as relative `(dx, dy)`
offsets, a placement validator `can_place`, a mutator `place`, a
line-clearing pass `clear_complete_lines`, a queue regenerator
`generate_new_pieces`, and the commit path inside
`GamePlugin::on_ui_message`.

Embedding choices:
* the board is a total function `Nat → Bool` over flat indices
  (cells at index `≥ GRID_SIZE * GRID_SIZE` are never read or
  written by any of the operations below, mirroring the `Vec` of
  length 64);
* machine integers `i32`/`usize`/`u32` become `Int`/`Nat`; the
  `as usize` cast of a nonnegative `i32` becomes `Int.toNat`;
* the hash-based randomness of `generate_new_pieces` is abstracted
  into an oracle argument: the three hash outputs, reduced
  `% PIECES.length` exactly as in the source;
* `selected_piece` is `Option (Fin 3)`: in the source it is an
  `Option<usize>` that is only ever set to the position of one of
  the three piece buttons, hence `< 3`.
-/

namespace KoalaKombo

/-- `GRID_SIZE` from the source: the board is 8 x 8. -/
def GRID_SIZE : Nat := 8

/-- A board: occupancy by flat cell index `idx x y = y * GRID_SIZE + x`. -/
abbrev Board := Nat → Bool

/-- A shape: the list of relative `(dx, dy)` block offsets. -/
abbrev Piece := List (Int × Int)

/-- The static shape catalog `PIECES` from the source, in order:
single block, horizontal 2, vertical 2, horizontal 3, vertical 3,
2x2 square, L shape, T shape, big L. -/
def PIECES : List Piece := [
  [(0, 0)],
  [(0, 0), (1, 0)],
  [(0, 0), (0, 1)],
  [(0, 0), (1, 0), (2, 0)],
  [(0, 0), (0, 1), (0, 2)],
  [(0, 0), (1, 0), (0, 1), (1, 1)],
  [(0, 0), (1, 0), (1, 1)],
  [(0, 0), (1, 0), (2, 0), (1, 1)],
  [(0, 0), (1, 0), (2, 0), (0, 1), (0, 2)]]

/-- `GameState::idx`: flat index of cell `(x, y)`. -/
def idx (x y : Nat) : Nat := y * GRID_SIZE + x

/-- `GameState::in_bounds`: the coordinate is inside `[0, GRID_SIZE)`
on both axes.  The source checks `x >= 0 && y >= 0` before the
`as usize` casts, so the casts are modelled by `Int.toNat`. -/
def in_bounds (x y : Int) : Bool :=
  decide (0 ≤ x) && decide (0 ≤ y) &&
    decide (x.toNat < GRID_SIZE) && decide (y.toNat < GRID_SIZE)

/-- `GameState::can_place`: every offset-translated block of the
shape is in bounds and its board cell unfilled.  The source returns
`false` at the first failing block, which is `List.all`. -/
def can_place (board : Board) (shape : Piece) (anchor_x anchor_y : Nat) : Bool :=
  shape.all fun d =>
    let x : Int := (anchor_x : Int) + d.1
    let y : Int := (anchor_y : Int) + d.2
    in_bounds x y && !board (idx x.toNat y.toNat)

/-- Point update of the board at one flat index. -/
def setCell (b : Board) (i : Nat) (v : Bool) : Board :=
  fun j => if j = i then v else b j

/-- `GameState::place`: fill every offset-translated block of the
shape (the source loops over the blocks mutating the board). -/
def place (board : Board) (shape : Piece) (anchor_x anchor_y : Nat) : Board :=
  shape.foldl
    (fun b d =>
      setCell b (idx ((anchor_x : Int) + d.1).toNat ((anchor_y : Int) + d.2).toNat) true)
    board

/-- Row `y` is fully filled: the source tests the slice
`board[y*GRID_SIZE .. y*GRID_SIZE + GRID_SIZE]`, whose entries are
`idx x y` for `x < GRID_SIZE`. -/
def rowComplete (b : Board) (y : Nat) : Bool :=
  (List.range GRID_SIZE).all fun x => b (idx x y)

/-- Set every cell of row `y` to unfilled. -/
def clearRow (b : Board) (y : Nat) : Board :=
  (List.range GRID_SIZE).foldl (fun acc x => setCell acc (idx x y) false) b

/-- Column `x` is fully filled. -/
def colComplete (b : Board) (x : Nat) : Bool :=
  (List.range GRID_SIZE).all fun y => b (idx x y)

/-- Set every cell of column `x` to unfilled. -/
def clearCol (b : Board) (x : Nat) : Board :=
  (List.range GRID_SIZE).foldl (fun acc y => setCell acc (idx x y) false) b

/-- One iteration of the row loop in `clear_complete_lines`: test
row `y` on the CURRENT board, and if complete clear it immediately
and add `GRID_SIZE` to the score. -/
def rowStep (acc : Board × Nat) (y : Nat) : Board × Nat :=
  if rowComplete acc.1 y then (clearRow acc.1 y, acc.2 + GRID_SIZE) else acc

/-- One iteration of the column loop in `clear_complete_lines`. -/
def colStep (acc : Board × Nat) (x : Nat) : Board × Nat :=
  if colComplete acc.1 x then (clearCol acc.1 x, acc.2 + GRID_SIZE) else acc

/-- `GameState::clear_complete_lines`: the row loop runs first,
mutating the board as it goes; the column loop then runs on the
board as left by the row loop.  Returns the final board and the
score delta. -/
def clear_complete_lines (b : Board) : Board × Nat :=
  (List.range GRID_SIZE).foldl colStep ((List.range GRID_SIZE).foldl rowStep (b, 0))

/-- `GameState::generate_new_pieces`: the three hash outputs are
abstracted into the oracle `o`; each is reduced `% PIECES.len()`
and indexes the catalog. -/
def generate_new_pieces (o : Nat × Nat × Nat) : Fin 3 → Piece :=
  fun i =>
    match i with
    | 0 => PIECES.getD (o.1 % PIECES.length) []
    | 1 => PIECES.getD (o.2.1 % PIECES.length) []
    | 2 => PIECES.getD (o.2.2 % PIECES.length) []

/-- The game state: board, the three queued pieces, the selected
slot, the score (`GameState` in the source). -/
structure GameState where
  board : Board
  available_pieces : Fin 3 → Piece
  selected_piece : Option (Fin 3)
  score : Nat

/-- `GameState::new`: empty board, score 0, nothing selected, and
the queue holding the FIRST THREE catalog entries `PIECES[0..=2]`. -/
def GameState.new : GameState where
  board := fun _ => false
  available_pieces := fun i =>
    match i with
    | 0 => PIECES.getD 0 []
    | 1 => PIECES.getD 1 []
    | 2 => PIECES.getD 2 []
  selected_piece := none
  score := 0

/-- The board-click commit path of `GamePlugin::on_ui_message`:
with a slot selected, the clicked cell index gives the anchor
`(cell_idx % GRID_SIZE, cell_idx / GRID_SIZE)`; if `can_place`
accepts, the piece is placed, lines are cleared, the score delta is
added, the selection is dropped and the whole queue is regenerated;
otherwise nothing changes. -/
def on_ui_commit (s : GameState) (cell_idx : Nat) (o : Nat × Nat × Nat) : GameState :=
  match s.selected_piece with
  | none => s
  | some sel =>
    let x := cell_idx % GRID_SIZE
    let y := cell_idx / GRID_SIZE
    let shape := s.available_pieces sel
    if can_place s.board shape x y then
      let r := clear_complete_lines (place s.board shape x y)
      { board := r.1
        available_pieces := generate_new_pieces o
        selected_piece := none
        score := s.score + r.2 }
    else s

/-- Snapshot form of the row loop: a cell is cleared iff its row is
complete in the INPUT board `b` (rows are pairwise disjoint, so the
sequential loop cannot interfere with its own row tests). -/
def postRows (b : Board) : Board :=
  fun i =>
    if i / GRID_SIZE ∈ List.range GRID_SIZE ∧ rowComplete b (i / GRID_SIZE) = true then false
    else b i

/-- Snapshot form of the column loop, judged against its own input
board `b` — which, inside `clear_complete_lines`, is the board as
left by the row loop, NOT the pre-clear board. -/
def postCols (b : Board) : Board :=
  fun i =>
    if i % GRID_SIZE ∈ List.range GRID_SIZE ∧ i < GRID_SIZE * GRID_SIZE ∧
        colComplete b (i % GRID_SIZE) = true then false
    else b i

/-- Number of complete rows of a board. -/
def rowsCleared (b : Board) : Nat :=
  (List.range GRID_SIZE).countP fun y => rowComplete b y

/-- Number of complete columns of a board. -/
def colsCleared (b : Board) : Nat :=
  (List.range GRID_SIZE).countP fun x => colComplete b x

/-- The score delta of one click, described through the snapshot
forms: `GRID_SIZE` per row complete in the post-placement board,
plus `GRID_SIZE` per column complete in the board left by the row
clearing; 0 when the click does not commit. -/
def commit_delta (s : GameState) (cell_idx : Nat) : Nat :=
  match s.selected_piece with
  | none => 0
  | some sel =>
    let x := cell_idx % GRID_SIZE
    let y := cell_idx / GRID_SIZE
    let shape := s.available_pieces sel
    if can_place s.board shape x y then
      GRID_SIZE * rowsCleared (place s.board shape x y) +
        GRID_SIZE * colsCleared (postRows (place s.board shape x y))
    else 0

/-- Fold a list of (clicked cell, oracle) commits over a state. -/
def playout (s : GameState) (ms : List (Nat × (Nat × Nat × Nat))) : GameState :=
  ms.foldl (fun st m => on_ui_commit st m.1 m.2) s

/-- The per-commit score deltas along a playout. -/
def playout_deltas : GameState → List (Nat × (Nat × Nat × Nat)) → List Nat
  | _, [] => []
  | s, m :: ms => commit_delta s m.1 :: playout_deltas (on_ui_commit s m.1 m.2) ms

/-- Concrete board: row 0 and column 0 both fully filled. -/
def c1Board : Board :=
  fun i => decide (i < 64) && (decide (i / 8 = 0) || decide (i % 8 = 0))

/-- Concrete board: row 2 and column 3 both fully filled. -/
def c4Board : Board :=
  fun i => decide (i < 64) && (decide (i / 8 = 2) || decide (i % 8 = 3))

/-- Concrete board: row 2 and column 3 filled except their
intersection cell `(3, 2)` (flat index 19). -/
def c4CxBoard : Board :=
  fun i => decide (i < 64) && (decide (i / 8 = 2) || decide (i % 8 = 3)) && !decide (i = 19)

/-- State about to commit the single block into the hole of
`c4CxBoard`. -/
def c4CxState : GameState where
  board := c4CxBoard
  available_pieces := GameState.new.available_pieces
  selected_piece := some 0
  score := 0

/-- Concrete board: row 0 and column 0 filled except cell `(0, 0)`. -/
def c6CxBoard : Board :=
  fun i => decide (0 < i) && decide (i < 64) && (decide (i / 8 = 0) || decide (i % 8 = 0))

/-- State about to commit the single block into the hole of
`c6CxBoard`. -/
def c6CxState : GameState where
  board := c6CxBoard
  available_pieces := GameState.new.available_pieces
  selected_piece := some 0
  score := 0

/-- A fresh session with slot 0 selected. -/
def sel0State : GameState :=
  { GameState.new with selected_piece := some 0 }

/-- A session holding the horizontal-3 bar in every slot, slot 0
selected, empty board. -/
def c9State : GameState where
  board := fun _ => false
  available_pieces := fun _ => PIECES.getD 3 []
  selected_piece := some 0
  score := 0

theorem setFold_apply (L : List Nat) (v : Bool) (b : Board) (i : Nat) :
    (L.foldl (fun acc j => setCell acc j v) b) i = if i ∈ L then v else b i := by
  induction L generalizing b with
  | nil => simp
  | cons a L ih =>
    simp only [List.foldl_cons, ih]
    by_cases h : i ∈ L
    · simp [h]
    · by_cases h2 : i = a
      · simp [h, h2, setCell]
      · simp [h, h2, setCell]

theorem clearRow_apply (b : Board) (y i : Nat) :
    clearRow b y i = if i / GRID_SIZE = y then false else b i := by
  have h0 := List.foldl_map (fun x => idx x y)
    (fun (acc : Board) j => setCell acc j false) (List.range GRID_SIZE) b
  have h1 : clearRow b y i
      = if i ∈ (List.range GRID_SIZE).map (fun x => idx x y) then false else b i := by
    rw [clearRow, ← h0]
    exact setFold_apply _ false b i
  have h2 : (i ∈ (List.range GRID_SIZE).map fun x => idx x y) ↔ i / GRID_SIZE = y := by
    simp only [List.mem_map, List.mem_range, idx, GRID_SIZE]
    constructor
    · rintro ⟨x, hx, rfl⟩; omega
    · intro h; exact ⟨i % 8, by omega, by omega⟩
  rw [h1]
  by_cases h : i / GRID_SIZE = y
  · rw [if_pos (h2.mpr h), if_pos h]
  · rw [if_neg (fun hm => h (h2.mp hm)), if_neg h]

theorem clearCol_apply (b : Board) (x i : Nat) (hx : x < GRID_SIZE) :
    clearCol b x i
      = if i % GRID_SIZE = x ∧ i < GRID_SIZE * GRID_SIZE then false else b i := by
  have h0 := List.foldl_map (fun y => idx x y)
    (fun (acc : Board) j => setCell acc j false) (List.range GRID_SIZE) b
  have h1 : clearCol b x i
      = if i ∈ (List.range GRID_SIZE).map (fun y => idx x y) then false else b i := by
    rw [clearCol, ← h0]
    exact setFold_apply _ false b i
  have h2 : (i ∈ (List.range GRID_SIZE).map fun y => idx x y) ↔
      i % GRID_SIZE = x ∧ i < GRID_SIZE * GRID_SIZE := by
    simp only [List.mem_map, List.mem_range, idx, GRID_SIZE] at *
    constructor
    · rintro ⟨y, hy, rfl⟩; omega
    · rintro ⟨h3, h4⟩; exact ⟨i / 8, by omega, by omega⟩
  rw [h1]
  by_cases h : i % GRID_SIZE = x ∧ i < GRID_SIZE * GRID_SIZE
  · rw [if_pos (h2.mpr h), if_pos h]
  · rw [if_neg (fun hm => h (h2.mp hm)), if_neg h]

theorem all_congr_mem (L : List Nat) (p q : Nat → Bool)
    (h : ∀ x ∈ L, p x = q x) : L.all p = L.all q := by
  induction L with
  | nil => rfl
  | cons a L ih =>
    simp only [List.all_cons]
    rw [h a (by simp), ih (fun x hx => h x (by simp [hx]))]

theorem countP_congr_mem (L : List Nat) (p q : Nat → Bool)
    (h : ∀ x ∈ L, p x = q x) : L.countP p = L.countP q := by
  induction L with
  | nil => rfl
  | cons a L ih =>
    rw [List.countP_cons, List.countP_cons, h a (by simp),
      ih (fun x hx => h x (by simp [hx]))]

theorem rowComplete_clearRow (b : Board) (y y' : Nat) (h : y' ≠ y) :
    rowComplete (clearRow b y) y' = rowComplete b y' := by
  unfold rowComplete
  apply all_congr_mem
  intro x hx
  simp only [List.mem_range] at hx
  have hne : ¬ idx x y' / GRID_SIZE = y := by
    simp only [idx, GRID_SIZE] at *
    omega
  rw [clearRow_apply, if_neg hne]

theorem colComplete_clearCol (b : Board) (x x' : Nat) (hx : x < GRID_SIZE)
    (hx' : x' < GRID_SIZE) (h : x' ≠ x) :
    colComplete (clearCol b x) x' = colComplete b x' := by
  unfold colComplete
  apply all_congr_mem
  intro y hy
  simp only [List.mem_range] at hy
  have hne : ¬ (idx x' y % GRID_SIZE = x ∧ idx x' y < GRID_SIZE * GRID_SIZE) := by
    simp only [idx, GRID_SIZE] at *
    omega
  rw [clearCol_apply b x _ hx, if_neg hne]

theorem rowsLoop (L : List Nat) (hnd : L.Nodup) (b : Board) (s : Nat) :
    L.foldl rowStep (b, s) =
      (fun i => if i / GRID_SIZE ∈ L ∧ rowComplete b (i / GRID_SIZE) = true then false
        else b i,
       s + GRID_SIZE * L.countP (fun y => rowComplete b y)) := by
  induction L generalizing b s with
  | nil =>
    refine Prod.ext ?_ ?_
    · funext i
      dsimp only [List.foldl_nil]
      rw [if_neg (fun hc => List.not_mem_nil _ hc.1)]
    · dsimp only [List.foldl_nil]
      simp
  | cons a L ih =>
    have ha : a ∉ L := (List.nodup_cons.mp hnd).1
    have hnd' : L.Nodup := (List.nodup_cons.mp hnd).2
    rw [List.foldl_cons]
    by_cases h : rowComplete b a = true
    · rw [show rowStep (b, s) a = (clearRow b a, s + GRID_SIZE) from by simp [rowStep, h]]
      rw [ih hnd']
      refine Prod.ext ?_ ?_
      · funext i
        dsimp only
        by_cases hy : i / GRID_SIZE = a
        · have h1 : ¬ (i / GRID_SIZE ∈ L ∧ rowComplete (clearRow b a) (i / GRID_SIZE) = true) :=
            fun hc => ha (hy ▸ hc.1)
          have h2 : i / GRID_SIZE ∈ a :: L ∧ rowComplete b (i / GRID_SIZE) = true :=
            ⟨by rw [hy]; exact List.mem_cons_self a L, by rw [hy]; exact h⟩
          rw [if_neg h1, if_pos h2, clearRow_apply, if_pos hy]
        · have e1 : rowComplete (clearRow b a) (i / GRID_SIZE) = rowComplete b (i / GRID_SIZE) :=
            rowComplete_clearRow b a _ hy
          have e2 : clearRow b a i = b i := by rw [clearRow_apply, if_neg hy]
          rw [e1, e2]
          have e3 : (i / GRID_SIZE ∈ a :: L) ↔ (i / GRID_SIZE ∈ L) := by
            simp [List.mem_cons, hy]
          by_cases hc : i / GRID_SIZE ∈ L ∧ rowComplete b (i / GRID_SIZE) = true
          · rw [if_pos hc, if_pos ⟨e3.mpr hc.1, hc.2⟩]
          · rw [if_neg hc, if_neg (fun hc2 => hc ⟨e3.mp hc2.1, hc2.2⟩)]
      · dsimp only
        have e : L.countP (fun y => rowComplete (clearRow b a) y)
            = L.countP (fun y => rowComplete b y) :=
          countP_congr_mem L _ _ (fun z hz => rowComplete_clearRow b a z (fun he => ha (he ▸ hz)))
        rw [e, List.countP_cons]
        simp only [h, if_true]
        ring
    · rw [show rowStep (b, s) a = (b, s) from by simp [rowStep, h]]
      rw [ih hnd']
      refine Prod.ext ?_ ?_
      · funext i
        dsimp only
        by_cases hy : i / GRID_SIZE = a
        · have hcn : ¬ rowComplete b (i / GRID_SIZE) = true := by rw [hy]; exact h
          rw [if_neg (fun hc => hcn hc.2), if_neg (fun hc => hcn hc.2)]
        · have e3 : (i / GRID_SIZE ∈ a :: L) ↔ (i / GRID_SIZE ∈ L) := by
            simp [List.mem_cons, hy]
          by_cases hc : i / GRID_SIZE ∈ L ∧ rowComplete b (i / GRID_SIZE) = true
          · rw [if_pos hc, if_pos ⟨e3.mpr hc.1, hc.2⟩]
          · rw [if_neg hc, if_neg (fun hc2 => hc ⟨e3.mp hc2.1, hc2.2⟩)]
      · dsimp only
        rw [List.countP_cons]
        simp [h]

theorem colsLoop (L : List Nat) (hL : ∀ x ∈ L, x < GRID_SIZE) (hnd : L.Nodup)
    (b : Board) (s : Nat) :
    L.foldl colStep (b, s) =
      (fun i => if i % GRID_SIZE ∈ L ∧ i < GRID_SIZE * GRID_SIZE ∧
          colComplete b (i % GRID_SIZE) = true then false
        else b i,
       s + GRID_SIZE * L.countP (fun x => colComplete b x)) := by
  induction L generalizing b s with
  | nil =>
    refine Prod.ext ?_ ?_
    · funext i
      dsimp only [List.foldl_nil]
      rw [if_neg (fun hc => List.not_mem_nil _ hc.1)]
    · dsimp only [List.foldl_nil]
      simp
  | cons a L ih =>
    have ha : a ∉ L := (List.nodup_cons.mp hnd).1
    have hnd' : L.Nodup := (List.nodup_cons.mp hnd).2
    have haG : a < GRID_SIZE := hL a (List.mem_cons_self a L)
    have hLG : ∀ x ∈ L, x < GRID_SIZE := fun x hx => hL x (List.mem_cons_of_mem a hx)
    have hmod : ∀ i : Nat, i % GRID_SIZE < GRID_SIZE := fun i => Nat.mod_lt i (by decide)
    rw [List.foldl_cons]
    by_cases h : colComplete b a = true
    · rw [show colStep (b, s) a = (clearCol b a, s + GRID_SIZE) from by simp [colStep, h]]
      rw [ih hLG hnd']
      refine Prod.ext ?_ ?_
      · funext i
        dsimp only
        by_cases hx : i % GRID_SIZE = a
        · have h1 : ¬ (i % GRID_SIZE ∈ L ∧ i < GRID_SIZE * GRID_SIZE ∧
              colComplete (clearCol b a) (i % GRID_SIZE) = true) :=
            fun hc => ha (hx ▸ hc.1)
          rw [if_neg h1, clearCol_apply b a i haG]
          by_cases hi : i < GRID_SIZE * GRID_SIZE
          · rw [if_pos ⟨hx, hi⟩,
              if_pos ⟨by rw [hx]; exact List.mem_cons_self a L, hi, by rw [hx]; exact h⟩]
          · rw [if_neg (fun hc => hi hc.2), if_neg (fun hc => hi hc.2.1)]
        · have e1 : colComplete (clearCol b a) (i % GRID_SIZE) = colComplete b (i % GRID_SIZE) :=
            colComplete_clearCol b a _ haG (hmod i) hx
          have e2 : clearCol b a i = b i := by
            rw [clearCol_apply b a i haG, if_neg (fun hc => hx hc.1)]
          rw [e1, e2]
          have e3 : (i % GRID_SIZE ∈ a :: L) ↔ (i % GRID_SIZE ∈ L) := by
            simp [List.mem_cons, hx]
          by_cases hc : i % GRID_SIZE ∈ L ∧ i < GRID_SIZE * GRID_SIZE ∧
              colComplete b (i % GRID_SIZE) = true
          · rw [if_pos hc, if_pos ⟨e3.mpr hc.1, hc.2⟩]
          · rw [if_neg hc, if_neg (fun hc2 => hc ⟨e3.mp hc2.1, hc2.2⟩)]
      · dsimp only
        have e : L.countP (fun x => colComplete (clearCol b a) x)
            = L.countP (fun x => colComplete b x) :=
          countP_congr_mem L _ _
            (fun z hz => colComplete_clearCol b a z haG (hLG z hz) (fun he => ha (he ▸ hz)))
        rw [e, List.countP_cons]
        simp only [h, if_true]
        ring
    · rw [show colStep (b, s) a = (b, s) from by simp [colStep, h]]
      rw [ih hLG hnd']
      refine Prod.ext ?_ ?_
      · funext i
        dsimp only
        by_cases hx : i % GRID_SIZE = a
        · have hcn : ¬ colComplete b (i % GRID_SIZE) = true := by rw [hx]; exact h
          rw [if_neg (fun hc => hcn hc.2.2), if_neg (fun hc => hcn hc.2.2)]
        · have e3 : (i % GRID_SIZE ∈ a :: L) ↔ (i % GRID_SIZE ∈ L) := by
            simp [List.mem_cons, hx]
          by_cases hc : i % GRID_SIZE ∈ L ∧ i < GRID_SIZE * GRID_SIZE ∧
              colComplete b (i % GRID_SIZE) = true
          · rw [if_pos hc, if_pos ⟨e3.mpr hc.1, hc.2⟩]
          · rw [if_neg hc, if_neg (fun hc2 => hc ⟨e3.mp hc2.1, hc2.2⟩)]
      · dsimp only
        rw [List.countP_cons]
        simp [h]

theorem clear_complete_lines_eq (b : Board) :
    clear_complete_lines b =
      (postCols (postRows b),
       GRID_SIZE * rowsCleared b + GRID_SIZE * colsCleared (postRows b)) := by
  unfold clear_complete_lines
  rw [rowsLoop (List.range GRID_SIZE) (List.nodup_range _) b 0]
  rw [colsLoop (List.range GRID_SIZE) (fun x hx => List.mem_range.mp hx) (List.nodup_range _)]
  refine Prod.ext rfl ?_
  show 0 + GRID_SIZE * rowsCleared b + GRID_SIZE * colsCleared (postRows b)
      = GRID_SIZE * rowsCleared b + GRID_SIZE * colsCleared (postRows b)
  rw [Nat.zero_add]

theorem in_bounds_iff (x y : Int) :
    in_bounds x y = true ↔
      0 ≤ x ∧ x < (GRID_SIZE : Int) ∧ 0 ≤ y ∧ y < (GRID_SIZE : Int) := by
  simp only [in_bounds, Bool.and_eq_true, decide_eq_true_eq, GRID_SIZE]
  omega

theorem can_place_iff (board : Board) (shape : Piece) (ax ay : Nat) :
    can_place board shape ax ay = true ↔
      ∀ d ∈ shape,
        0 ≤ (ax : Int) + d.1 ∧ (ax : Int) + d.1 < (GRID_SIZE : Int) ∧
        0 ≤ (ay : Int) + d.2 ∧ (ay : Int) + d.2 < (GRID_SIZE : Int) ∧
        board (idx ((ax : Int) + d.1).toNat ((ay : Int) + d.2).toNat) = false := by
  simp only [can_place, List.all_eq_true, Bool.and_eq_true, Bool.not_eq_true']
  constructor
  · intro h d hd
    rcases h d hd with ⟨hb, hcell⟩
    rcases (in_bounds_iff _ _).mp hb with ⟨h1, h2, h3, h4⟩
    exact ⟨h1, h2, h3, h4, hcell⟩
  · intro h d hd
    rcases h d hd with ⟨h1, h2, h3, h4, hcell⟩
    exact ⟨(in_bounds_iff _ _).mpr ⟨h1, h2, h3, h4⟩, hcell⟩

theorem place_apply (board : Board) (shape : Piece) (ax ay i : Nat) :
    place board shape ax ay i =
      if i ∈ shape.map (fun d => idx ((ax : Int) + d.1).toNat ((ay : Int) + d.2).toNat)
      then true else board i := by
  have h0 := List.foldl_map
    (fun d : Int × Int => idx ((ax : Int) + d.1).toNat ((ay : Int) + d.2).toNat)
    (fun (acc : Board) j => setCell acc j true) shape board
  rw [place, ← h0]
  exact setFold_apply _ true board i

theorem postRows_le (b : Board) (i : Nat) : postRows b i = true → b i = true := by
  simp only [postRows]
  split
  · intro h
    cases h
  · exact fun h => h

theorem colComplete_postRows (b : Board) (x : Nat)
    (h : colComplete (postRows b) x = true) : colComplete b x = true := by
  rw [colComplete, List.all_eq_true] at h ⊢
  exact fun y hy => postRows_le b _ (h y hy)

theorem on_ui_commit_score (s : GameState) (c : Nat) (o : Nat × Nat × Nat) :
    (on_ui_commit s c o).score = s.score + commit_delta s c := by
  cases hsel : s.selected_piece with
  | none => simp [on_ui_commit, commit_delta, hsel]
  | some sel =>
    by_cases h : can_place s.board (s.available_pieces sel) (c % GRID_SIZE) (c / GRID_SIZE) = true
    · simp only [on_ui_commit, commit_delta, hsel, h, if_true]
      rw [clear_complete_lines_eq]
    · simp [on_ui_commit, commit_delta, hsel, h]

/-- Claim C1 (amended): line clearing is NOT judged against a single
pre-clear snapshot.  The row loop clears complete rows as it finds
them; since rows are pairwise disjoint this equals clearing exactly
the rows complete in the pre-clear board (`postRows`); the column
loop then judges columns against the board LEFT BY the row clearing,
clearing exactly the columns complete in `postRows b` (`postCols`),
and the score delta is `GRID_SIZE` per pre-clear-complete row plus
`GRID_SIZE` per post-row-clearing-complete column. -/
theorem C1_two_phase_clearing (b : Board) :
    clear_complete_lines b =
      (postCols (postRows b),
       GRID_SIZE * rowsCleared b + GRID_SIZE * colsCleared (postRows b)) :=
  clear_complete_lines_eq b

/-- Claim C1 counterexample: on the board with row 0 and column 0
fully filled, both lines are complete in the pre-clear snapshot, yet
after `clear_complete_lines` the column-0 cell `(0, 3)` is still
filled: row 0 was cleared first and column 0, re-judged on the
cleared board, was no longer complete — so a line fully filled in
the pre-clear snapshot was not cleared, and clearing one line did
change how a crossing line was judged. -/
theorem C1_counterexample :
    rowComplete c1Board 0 = true ∧ colComplete c1Board 0 = true ∧
      (clear_complete_lines c1Board).1 (idx 0 3) = true := by decide

/-- Claim C2 (amended): after EVERY successful placement the entire
queue of 3 shapes is regenerated from three fresh draws, regardless
of which slots have been used; the code keeps no per-slot used flag
at all, so no slot's shape ever survives a successful placement. -/
theorem C2_queue_regenerated (s : GameState) (sel : Fin 3) (c : Nat) (o : Nat × Nat × Nat)
    (hsel : s.selected_piece = some sel)
    (h : can_place s.board (s.available_pieces sel) (c % GRID_SIZE) (c / GRID_SIZE) = true) :
    (on_ui_commit s c o).available_pieces = generate_new_pieces o ∧
      (on_ui_commit s c o).selected_piece = none := by
  simp [on_ui_commit, hsel, h]

theorem C2_witness :
    (sel0State.selected_piece = some 0 ∧
      can_place sel0State.board (sel0State.available_pieces 0)
        (0 % GRID_SIZE) (0 / GRID_SIZE) = true) ∧
    ((on_ui_commit sel0State 0 (3, 4, 5)).available_pieces = generate_new_pieces (3, 4, 5) ∧
      (on_ui_commit sel0State 0 (3, 4, 5)).selected_piece = none) :=
  ⟨⟨rfl, by decide⟩, C2_queue_regenerated sel0State 0 0 (3, 4, 5) rfl (by decide)⟩

/-- Claim C2 counterexample: from a fresh session, one single
placement (slot 0 only — slots 1 and 2 untouched) already replaces
slot 1's shape: with oracle draws `(3, 3, 3)` slot 1 afterwards
holds the horizontal-3 bar `PIECES[3]`, not its previous shape
`PIECES[1]`, so an unused slot's shape does not survive and the
queue is not replaced only when all 3 slots are used. -/
theorem C2_counterexample :
    (sel0State.available_pieces 1 = PIECES.getD 1 [] ∧
      (on_ui_commit sel0State 0 (3, 3, 3)).available_pieces 1 = PIECES.getD 3 []) ∧
    PIECES.getD 3 [] ≠ PIECES.getD 1 [] := by decide

/-- Claim C3 (confirmed): `can_place` accepts a shape at an anchor
iff every offset-translated block coordinate lies inside
`[0, GRID_SIZE) x [0, GRID_SIZE)` and its board cell is unfilled;
the whole call is a single boolean, so a failure carries no partial
information. -/
theorem C3_can_place_characterization (board : Board) (shape : Piece) (ax ay : Nat) :
    can_place board shape ax ay = true ↔
      ∀ d ∈ shape,
        0 ≤ (ax : Int) + d.1 ∧ (ax : Int) + d.1 < (GRID_SIZE : Int) ∧
        0 ≤ (ay : Int) + d.2 ∧ (ay : Int) + d.2 < (GRID_SIZE : Int) ∧
        board (idx ((ax : Int) + d.1).toNat ((ay : Int) + d.2).toNat) = false :=
  can_place_iff board shape ax ay

/-- Claim C4 (amended): when a board has exactly one complete row
`r` and exactly one complete column `c`, `clear_complete_lines`
yields a score delta of `GRID_SIZE` (8), not 16: the row is cleared
first, so the column — re-judged on the cleared board — is no
longer complete and is not cleared.  The intersection cell `(c, r)`
does end empty (the row clear emptied it). -/
theorem C4_one_row_one_col (b : Board) (r c : Nat)
    (hr : (List.range GRID_SIZE).filter (fun y => rowComplete b y) = [r])
    (hc : (List.range GRID_SIZE).filter (fun x => colComplete b x) = [c]) :
    (clear_complete_lines b).2 = GRID_SIZE ∧
      (clear_complete_lines b).1 (idx c r) = false := by
  have hrmem : r ∈ (List.range GRID_SIZE).filter (fun y => rowComplete b y) := by
    rw [hr]
    exact List.mem_cons_self r []
  have hcmem : c ∈ (List.range GRID_SIZE).filter (fun x => colComplete b x) := by
    rw [hc]
    exact List.mem_cons_self c []
  have hrlt : r < GRID_SIZE := List.mem_range.mp (List.mem_filter.mp hrmem).1
  have hclt : c < GRID_SIZE := List.mem_range.mp (List.mem_filter.mp hcmem).1
  have hrC : rowComplete b r = true := (List.mem_filter.mp hrmem).2
  have h8 : GRID_SIZE = 8 := rfl
  have hclt8 : c < 8 := h8 ▸ hclt
  have hidx : idx c r / GRID_SIZE = r := by
    simp only [idx, h8]
    omega
  have h1 : postRows b (idx c r) = false := by
    simp only [postRows, hidx]
    rw [if_pos ⟨List.mem_range.mpr hrlt, hrC⟩]
  have hcols0 : colsCleared (postRows b) = 0 := by
    rw [colsCleared, List.countP_eq_zero]
    intro x hx hcc
    have hcb : colComplete b x = true := colComplete_postRows b x hcc
    have hxc : x = c := by
      have hxin : x ∈ (List.range GRID_SIZE).filter (fun x => colComplete b x) :=
        List.mem_filter.mpr ⟨hx, hcb⟩
      rw [hc] at hxin
      simpa using hxin
    subst hxc
    have hcell := (List.all_eq_true.mp hcc) r (List.mem_range.mpr hrlt)
    rw [h1] at hcell
    cases hcell
  have hrows1 : rowsCleared b = 1 := by
    rw [rowsCleared, List.countP_eq_length_filter, hr]
    rfl
  have heq := clear_complete_lines_eq b
  constructor
  · rw [heq]
    show GRID_SIZE * rowsCleared b + GRID_SIZE * colsCleared (postRows b) = GRID_SIZE
    rw [hrows1, hcols0]
    omega
  · rw [heq]
    show postCols (postRows b) (idx c r) = false
    simp only [postCols]
    split
    · rfl
    · exact h1

theorem C4_witness :
    ((List.range GRID_SIZE).filter (fun y => rowComplete c4Board y) = [2] ∧
      (List.range GRID_SIZE).filter (fun x => colComplete c4Board x) = [3]) ∧
    ((clear_complete_lines c4Board).2 = GRID_SIZE ∧
      (clear_complete_lines c4Board).1 (idx 3 2) = false) :=
  ⟨⟨by decide, by decide⟩, C4_one_row_one_col c4Board 2 3 (by decide) (by decide)⟩

/-- Claim C4 counterexample: committing the single block into the
one hole of `c4CxBoard` (cell 19 = `(3, 2)`) simultaneously
completes exactly one row (row 2) and exactly one column (column 3)
of the post-placement board, yet the commit's score delta is 8,
not 16. -/
theorem C4_counterexample :
    (List.range GRID_SIZE).filter
        (fun y => rowComplete (place c4CxState.board (c4CxState.available_pieces 0)
          (19 % GRID_SIZE) (19 / GRID_SIZE)) y) = [2] ∧
    (List.range GRID_SIZE).filter
        (fun x => colComplete (place c4CxState.board (c4CxState.available_pieces 0)
          (19 % GRID_SIZE) (19 / GRID_SIZE)) x) = [3] ∧
    c4CxState.score = 0 ∧
    (on_ui_commit c4CxState 19 (0, 0, 0)).score = 8 := by decide

/-- Claim C5 (confirmed): a commit is all-or-nothing.  Either the
click changes nothing at all (no selection, or `can_place`
rejects — the returned state is the input state, board included),
or the placement is accepted: every target cell of the selected
shape is filled by the placement step, and the resulting state is
exactly the cleared board with the score delta added, the selection
dropped and the queue regenerated. -/
theorem C5_all_or_nothing (s : GameState) (c : Nat) (o : Nat × Nat × Nat) :
    on_ui_commit s c o = s ∨
      ∃ sel, s.selected_piece = some sel ∧
        can_place s.board (s.available_pieces sel) (c % GRID_SIZE) (c / GRID_SIZE) = true ∧
        (∀ d ∈ s.available_pieces sel,
          place s.board (s.available_pieces sel) (c % GRID_SIZE) (c / GRID_SIZE)
            (idx (((c % GRID_SIZE : Nat) : Int) + d.1).toNat
              (((c / GRID_SIZE : Nat) : Int) + d.2).toNat) = true) ∧
        on_ui_commit s c o =
          { board :=
              (clear_complete_lines
                (place s.board (s.available_pieces sel) (c % GRID_SIZE) (c / GRID_SIZE))).1
            available_pieces := generate_new_pieces o
            selected_piece := none
            score := s.score +
              (clear_complete_lines
                (place s.board (s.available_pieces sel) (c % GRID_SIZE) (c / GRID_SIZE))).2 } := by
  cases hsel : s.selected_piece with
  | none =>
    left
    simp [on_ui_commit, hsel]
  | some sel =>
    by_cases h : can_place s.board (s.available_pieces sel) (c % GRID_SIZE) (c / GRID_SIZE) = true
    · right
      refine ⟨sel, rfl, h, ?_, ?_⟩
      · intro d hd
        rw [place_apply]
        rw [if_pos (List.mem_map.mpr ⟨d, hd, rfl⟩)]
      · simp [on_ui_commit, hsel, h]
    · left
      simp [on_ui_commit, hsel, h]

/-- Claim C6 (amended): along any sequence of clicks, the score is
the initial score plus the sum of the per-commit deltas, where each
successful commit contributes `GRID_SIZE` per row complete in the
post-placement (pre-clear) board plus `GRID_SIZE` per column
complete in the board left by the row clearing (a rejected click
contributes 0); the score never decreases.  A row/column
intersection is NOT counted in both lines: when a row is cleared,
every crossing column fails its (post-row-clearing) test. -/
theorem C6_score_sum (s : GameState) (ms : List (Nat × (Nat × Nat × Nat))) :
    (playout s ms).score = s.score + (playout_deltas s ms).sum ∧
      s.score ≤ (playout s ms).score := by
  induction ms generalizing s with
  | nil => simp [playout, playout_deltas]
  | cons m ms ih =>
    have h1 := on_ui_commit_score s m.1 m.2
    obtain ⟨h2, h3⟩ := ih (on_ui_commit s m.1 m.2)
    have hp : playout s (m :: ms) = playout (on_ui_commit s m.1 m.2) ms := rfl
    have hd : playout_deltas s (m :: ms)
        = commit_delta s m.1 :: playout_deltas (on_ui_commit s m.1 m.2) ms := rfl
    rw [hp, hd, List.sum_cons]
    omega

/-- Claim C6 counterexample: committing the single block into the
one hole of `c6CxBoard` (cell 0) completes exactly one row and
exactly one column of the post-placement board; the claim's formula
`GRID_SIZE * (rows + cols) = 8 * (1 + 1) = 16` (intersection
counted in both lines), but the session's score after the commit is
8. -/
theorem C6_counterexample :
    (List.range GRID_SIZE).filter
        (fun y => rowComplete (place c6CxState.board (c6CxState.available_pieces 0)
          (0 % GRID_SIZE) (0 / GRID_SIZE)) y) = [0] ∧
    (List.range GRID_SIZE).filter
        (fun x => colComplete (place c6CxState.board (c6CxState.available_pieces 0)
          (0 % GRID_SIZE) (0 / GRID_SIZE)) x) = [0] ∧
    c6CxState.score = 0 ∧
    (on_ui_commit c6CxState 0 (0, 0, 0)).score = 8 := by decide

/-- Claim C7 (amended): a newly created game session has every
board cell empty, a score of exactly 0, no selection, and the FIXED
piece queue `PIECES[0]`, `PIECES[1]`, `PIECES[2]` (single block,
horizontal 2, vertical 2); no randomness is consulted at session
creation. -/
theorem C7_new_session :
    (∀ i : Nat, GameState.new.board i = false) ∧
      GameState.new.score = 0 ∧
      GameState.new.selected_piece = none ∧
      GameState.new.available_pieces 0 = PIECES.getD 0 [] ∧
      GameState.new.available_pieces 1 = PIECES.getD 1 [] ∧
      GameState.new.available_pieces 2 = PIECES.getD 2 [] :=
  ⟨fun _ => rfl, rfl, rfl, by decide, by decide, by decide⟩

/-- Claim C7 counterexample: the initial queue is not 3 uniform
random draws — `GameState::new` is deterministic and always yields
the fixed queue `PIECES[0..=2]`; in particular slot 0 is always the
single block and can never be, e.g., the horizontal-3 bar, which a
uniform draw over the catalog would produce with probability 1/9. -/
theorem C7_counterexample :
    GameState.new.available_pieces 0 = PIECES.getD 0 [] ∧
      GameState.new.available_pieces 1 = PIECES.getD 1 [] ∧
      GameState.new.available_pieces 2 = PIECES.getD 2 [] ∧
      PIECES.getD 0 [] ≠ PIECES.getD 3 [] := by decide

/-- Claim C8 (amended): the catalog holds exactly 9 shapes: the
1-cell block; straight bars of 2 and 3 cells in both orientations;
one square block (2x2); a 3-cell L, a 4-cell T and a 5-cell big L.
It has NO 4- or 5-cell straight bars, only one square size, no
S/Z shapes, and no shape of 6 or more cells (so no solid 3x3). -/
theorem C8_catalog :
    PIECES.length = 9 ∧
      [((0 : Int), (0 : Int))] ∈ PIECES ∧
      [((0 : Int), (0 : Int)), (1, 0)] ∈ PIECES ∧
      [((0 : Int), (0 : Int)), (0, 1)] ∈ PIECES ∧
      [((0 : Int), (0 : Int)), (1, 0), (2, 0)] ∈ PIECES ∧
      [((0 : Int), (0 : Int)), (0, 1), (0, 2)] ∈ PIECES ∧
      [((0 : Int), (0 : Int)), (1, 0), (0, 1), (1, 1)] ∈ PIECES ∧
      [((0 : Int), (0 : Int)), (1, 0), (1, 1)] ∈ PIECES ∧
      [((0 : Int), (0 : Int)), (1, 0), (2, 0), (1, 1)] ∈ PIECES ∧
      [((0 : Int), (0 : Int)), (1, 0), (2, 0), (0, 1), (0, 2)] ∈ PIECES ∧
      (PIECES.all fun p => decide (p.length ≤ 5)) = true := by decide

/-- Claim C8 counterexample: every catalog shape has at most 5
cells (the cell counts are 1,2,2,3,3,4,3,4,5), so the catalog holds
no 4- or 5-cell straight bar beyond the 3-bars, no second square
size, and no block of 6 or more cells — in particular no solid 3x3
block. -/
theorem C8_counterexample :
    PIECES.map List.length = [1, 2, 2, 3, 3, 4, 3, 4, 5] ∧
      (PIECES.all fun p => decide (p.length ≤ 5)) = true := by decide

/-- Claim C9 (confirmed): committing the horizontal-3 bar on an
empty board anchored at cell `(0, 0)` fills exactly the cells
`(0,0)`, `(1,0)`, `(2,0)` — flat indices 0, 1, 2 — and nothing
else; and for EVERY board, `can_place` rejects that same shape at
anchor `(6, 0)`, because the translated column `6 + 2 = 8` is out
of range. -/
theorem C9_scenario :
    (((List.range (GRID_SIZE * GRID_SIZE)).all fun i =>
        (on_ui_commit c9State 0 (0, 0, 0)).board i == decide (i < 3)) = true) ∧
      ∀ b : Board, can_place b (PIECES.getD 3 []) 6 0 = false := by
  refine ⟨by decide, ?_⟩
  intro b
  by_contra hcp
  rw [Bool.not_eq_false] at hcp
  have h := (can_place_iff b (PIECES.getD 3 []) 6 0).mp hcp ((2 : Int), (0 : Int)) (by decide)
  have h8 : (GRID_SIZE : Int) = 8 := rfl
  rw [h8] at h
  omega

/-- Claim C10 (confirmed): whenever `can_place` accepts a catalog
shape at an anchor, every flat board index computed by the
placement step stays strictly below `GRID_SIZE * GRID_SIZE`, and
both translated coordinates are nonnegative, so the
signed-to-unsigned casts in `place` never see a negative value and
the board indexing cannot go out of bounds. -/
theorem C10_place_in_range (board : Board) (shape : Piece) (ax ay : Nat)
    (hs : shape ∈ PIECES)
    (h : can_place board shape ax ay = true) :
    ∀ d ∈ shape,
      0 ≤ (ax : Int) + d.1 ∧ 0 ≤ (ay : Int) + d.2 ∧
      idx ((ax : Int) + d.1).toNat ((ay : Int) + d.2).toNat < GRID_SIZE * GRID_SIZE := by
  intro d hd
  rcases (can_place_iff board shape ax ay).mp h d hd with ⟨h1, h2, h3, h4, h5⟩
  refine ⟨h1, h3, ?_⟩
  have h8 : GRID_SIZE = 8 := rfl
  simp only [idx, h8]
  rw [h8] at h2 h4
  omega

theorem C10_witness :
    (PIECES.getD 0 [] ∈ PIECES ∧
      can_place (fun _ => false) (PIECES.getD 0 []) 0 0 = true) ∧
    (0 ≤ ((0 : Nat) : Int) + ((0 : Int), (0 : Int)).1 ∧
      0 ≤ ((0 : Nat) : Int) + ((0 : Int), (0 : Int)).2 ∧
      idx (((0 : Nat) : Int) + ((0 : Int), (0 : Int)).1).toNat
        (((0 : Nat) : Int) + ((0 : Int), (0 : Int)).2).toNat < GRID_SIZE * GRID_SIZE) :=
  ⟨⟨by decide, by decide⟩,
    C10_place_in_range (fun _ => false) (PIECES.getD 0 []) 0 0 (by decide) (by decide)
      ((0 : Int), (0 : Int)) (by decide)⟩
end KoalaKombo
